import Mathlib

/-!
Verification of `synthetic-test-data/random_fasta.py`, a script that prints
randomly generated FASTQ records to standard output.

The script is embedded shallowly.  The process-wide pseudorandom source is
modelled as an infinite stream of natural-number draws; each call to
`random.randint` / `random.randrange` consumes one draw, and reduction modulo
the range size embeds the library contract that every result lies in the
requested range.  Standard output is modelled as the list of printed lines,
in print order.  Python `int` is `Int`; `range(n)` with a negative bound and
`"E" * n` with a negative `n` both behave as with `n = 0`, which `Int.toNat`
captures.
-/

/-- The pseudorandom source: an infinite stream of draws. -/
abbrev RandStream := Nat → Nat

/-- Embeds `random.randint(lo, hi)` (inclusive bounds): consumes one draw,
returning a value in `[lo, hi]` and the rest of the stream. -/
def randint (lo hi : Nat) (g : RandStream) : Nat × RandStream :=
  (lo + g 0 % (hi - lo + 1), fun i => g (i + 1))

/-- Embeds `random.randrange(n)`: consumes one draw, returning a value in
`[0, n)` and the rest of the stream. -/
def randrange (n : Nat) (g : RandStream) : Nat × RandStream :=
  (g 0 % n, fun i => g (i + 1))

/-- `string.ascii_lowercase` from the Python standard library. -/
def ascii_lowercase : List Char := "abcdefghijklmnopqrstuvwxyz".data

/-- The list comprehension in `randomReadName` (line 17): twelve characters,
each `string.ascii_lowercase[random.randint(0,25)]`, drawn left to right. -/
def randomNameChars : Nat → RandStream → List Char × RandStream
  | 0, g => ([], g)
  | n + 1, g =>
    let p := randint 0 25 g
    let q := randomNameChars n p.2
    (ascii_lowercase.getD p.1 'a' :: q.1, q.2)

/-- `randomReadName()` (lines 16-17): `"".join` of the twelve characters. -/
def randomReadName (g : RandStream) : String × RandStream :=
  let p := randomNameChars 12 g
  (String.mk p.1, p.2)

/-- `bases = ["A", "T", "G", "C"]` (line 21). -/
def bases : List String := ["A", "T", "G", "C"]

/-- The list comprehension on line 25: `len` single-base strings, each
`bases[random.randrange(4)]`, drawn left to right. -/
def randomSeqParts : Nat → RandStream → List String × RandStream
  | 0, g => ([], g)
  | n + 1, g =>
    let p := randrange 4 g
    let q := randomSeqParts n p.2
    (bases.getD p.1 "" :: q.1, q.2)

/-- Python string repetition `s * n` for an `int` count: empty for `n ≤ 0`. -/
def pyStrRepeat (s : String) (n : Int) : String :=
  String.join (List.replicate n.toNat s)

/-- One iteration of the main loop (lines 24-29): the four lines printed for
one record, in print order, together with the remaining stream.  `qual` is the
string computed once on line 19 and passed in. -/
def genRecord (len : Int) (qual : String) (g : RandStream) : List String × RandStream :=
  let nm := randomReadName g
  let sq := randomSeqParts len.toNat nm.2
  (["@" ++ nm.1, String.join sq.1, "+", qual], sq.2)

/-- The main loop (lines 23-29), iterated `n` times: the records printed, in
order, together with the remaining stream. -/
def genRecords : Nat → Int → String → RandStream → List (List String) × RandStream
  | 0, _, _, g => ([], g)
  | n + 1, len, qual, g =>
    let p := genRecord len qual g
    let q := genRecords n len qual p.2
    (p.1 :: q.1, q.2)

/-- The records of a whole run: `qual = "E" * args.len` is computed once
(line 19) and the loop runs `range(args.reads)` times (line 23). -/
def records (reads len : Int) (g : RandStream) : List (List String) :=
  (genRecords reads.toNat len (pyStrRepeat "E" len) g).1

/-- The standard-output lines of a whole run, in print order. -/
def runProgram (reads len : Int) (g : RandStream) : List String :=
  (records reads len g).flatten

/-- A variant of the main loop that recomputes `"E" * len` inside every
iteration instead of reusing the precomputed string. -/
def genRecordsNaive : Nat → Int → RandStream → List (List String) × RandStream
  | 0, _, g => ([], g)
  | n + 1, len, g =>
    let p := genRecord len (pyStrRepeat "E" len) g
    let q := genRecordsNaive n len p.2
    (p.1 :: q.1, q.2)

/-- The whole run of the naive variant. -/
def runProgramNaive (reads len : Int) (g : RandStream) : List String :=
  (genRecordsNaive reads.toNat len g).1.flatten

/-- Decimal-digit run of an integer literal: `none` unless the characters are
one or more decimal digits. -/
def parseDigitsAux : List Char → Nat → Option Nat
  | [], acc => some acc
  | c :: cs, acc =>
    if c.isDigit then parseDigitsAux cs (acc * 10 + (c.toNat - 48)) else none

def parseDigits (cs : List Char) : Option Nat :=
  match cs with
  | [] => none
  | _ => parseDigitsAux cs 0

/-- Python `int(s)` on a command-line token, modelling the `type=int`
conversion of `argparse`: an optional sign followed by one or more decimal
digits; `none` when the token is not an integer literal. -/
def pyInt? (s : String) : Option Int :=
  match s.data with
  | '-' :: cs => (parseDigits cs).map (fun n => -(n : Int))
  | '+' :: cs => (parseDigits cs).map (fun n => (n : Int))
  | cs => (parseDigits cs).map (fun n => (n : Int))

/-- Argument parsing (lines 8-11), embedding the documented behaviour of
`argparse` for this parser: `-reads` is `required=True` and both options are
`type=int`, so parsing fails when `-reads` is absent or when either supplied
token is not an integer; `-len` defaults to `75`. -/
def parseArgs (readsArg lenArg : Option String) : Except Unit (Int × Int) :=
  match readsArg with
  | none => .error ()
  | some rs =>
    match pyInt? rs with
    | none => .error ()
    | some r =>
      match lenArg with
      | none => .ok (r, 75)
      | some ls =>
        match pyInt? ls with
        | none => .error ()
        | some l => .ok (r, l)

/-- The whole program as invoked from the command line: on a parse failure
`argparse` prints a usage message to standard error and exits with status 2,
having written nothing to standard output; otherwise the generator runs and
the process exits with status 0.  Result: (exit status, standard-output
lines). -/
def runScript (readsArg lenArg : Option String) (g : RandStream) : Nat × List String :=
  match parseArgs readsArg lenArg with
  | .error _ => (2, [])
  | .ok rl => (0, runProgram rl.1 rl.2 g)

/-- One ASCII lowercase letter. -/
def isLowerAZ (c : Char) : Bool := decide ('a' ≤ c) && decide (c ≤ 'z')

/-- The number of draws one run consumes: 12 per name plus one per base. -/
def drawCount (reads len : Int) : Nat := reads.toNat * (12 + len.toNat)

/-! ### Basic helper lemmas -/

theorem getD_append_of_lt {α : Type} (a l : List α) (d : α) (j : Nat) (h : j < a.length) :
    (a ++ l).getD j d = a.getD j d := by
  induction a generalizing j with
  | nil => cases h
  | cons x t ih =>
    cases j with
    | zero => rfl
    | succ m => simpa using ih m (by simpa using h)

theorem getD_append_add {α : Type} (a l : List α) (d : α) (j : Nat) :
    (a ++ l).getD (a.length + j) d = l.getD j d := by
  induction a with
  | nil => simp
  | cons x t ih => simpa [Nat.succ_add] using ih

theorem foldl_append_data (l : List String) (s : String) :
    (l.foldl (· ++ ·) s).data = s.data ++ (l.map String.data).flatten := by
  induction l generalizing s with
  | nil => simp
  | cons a t ih => simp [List.foldl_cons, ih, String.data_append]

theorem join_data (l : List String) :
    (String.join l).data = (l.map String.data).flatten := by
  simp [String.join, foldl_append_data]

/-! ### Structure of the generated records -/

theorem genRecords_length (n : Nat) (len : Int) (qual : String) (g : RandStream) :
    (genRecords n len qual g).1.length = n := by
  induction n generalizing g with
  | zero => rfl
  | succ k ih => simp [genRecords, ih]

theorem genRecords_flatten_length (n : Nat) (len : Int) (qual : String) (g : RandStream) :
    (genRecords n len qual g).1.flatten.length = 4 * n := by
  induction n generalizing g with
  | zero => rfl
  | succ k ih =>
    simp only [genRecords, List.flatten_cons, List.length_append, ih, genRecord,
      List.length_cons, List.length_nil]
    omega

theorem mem_genRecords (n : Nat) (len : Int) (qual : String) (g : RandStream)
    (r : List String) (h : r ∈ (genRecords n len qual g).1) :
    ∃ g2, r = (genRecord len qual g2).1 := by
  induction n generalizing g with
  | zero => cases h
  | succ k ih =>
    simp only [genRecords] at h
    rcases List.mem_cons.mp h with h | h
    · exact ⟨g, h⟩
    · exact ih _ h

theorem mem_records (reads len : Int) (g : RandStream) (r : List String)
    (h : r ∈ records reads len g) :
    ∃ g2, r = (genRecord len (pyStrRepeat "E" len) g2).1 :=
  mem_genRecords _ _ _ _ _ h

/-- C1: for every non-negative `reads = N` and `len = L`, the run prints
exactly `4*N` lines to standard output, and for `N = 0` it prints nothing. -/
theorem output_line_count (N L : Nat) (g : RandStream) :
    (runProgram N L g).length = 4 * N ∧ runProgram 0 L g = [] := by
  constructor
  · simp only [runProgram, records, Int.toNat_ofNat]
    exact genRecords_flatten_length N L _ g
  · rfl

/-! ### Name characters -/

theorem isLowerAZ_ascii_getD (k : Nat) :
    isLowerAZ (ascii_lowercase.getD k 'a') = true := by
  rcases Nat.lt_or_ge k 26 with h | h
  · have hb : ∀ j, j < 26 → isLowerAZ (ascii_lowercase.getD j 'a') = true := by decide
    exact hb k h
  · rw [List.getD_eq_default]
    · rfl
    · have h26 : ascii_lowercase.length = 26 := by decide
      omega

theorem randomNameChars_length (n : Nat) (g : RandStream) :
    (randomNameChars n g).1.length = n := by
  induction n generalizing g with
  | zero => rfl
  | succ k ih => simp [randomNameChars, ih]

theorem randomNameChars_lower (n : Nat) (g : RandStream) :
    ∀ c ∈ (randomNameChars n g).1, isLowerAZ c = true := by
  induction n generalizing g with
  | zero => intro c hc; cases hc
  | succ k ih =>
    intro c hc
    simp only [randomNameChars] at hc
    rcases List.mem_cons.mp hc with h | h
    · subst h; exact isLowerAZ_ascii_getD _
    · exact ih _ c h

/-! ### Sequence parts -/

theorem randomSeqParts_length (n : Nat) (g : RandStream) :
    (randomSeqParts n g).1.length = n := by
  induction n generalizing g with
  | zero => rfl
  | succ k ih => simp [randomSeqParts, ih]

theorem randomSeqParts_mem (n : Nat) (g : RandStream) :
    ∀ p ∈ (randomSeqParts n g).1, p ∈ bases := by
  induction n generalizing g with
  | zero => intro p hp; cases hp
  | succ k ih =>
    intro p hp
    simp only [randomSeqParts] at hp
    rcases List.mem_cons.mp hp with h | h
    · subst h
      have h4 : (randrange 4 g).1 < 4 := Nat.mod_lt _ (by decide)
      have hb : ∀ j, j < 4 → bases.getD j "" ∈ bases := by decide
      exact hb _ h4
    · exact ih _ p h

theorem join_length_of_bases (l : List String) (h : ∀ p ∈ l, p ∈ bases) :
    (String.join l).data.length = l.length := by
  induction l with
  | nil => rfl
  | cons a t ih =>
    have ha : a.data.length = 1 := by
      have hm := h a (List.mem_cons_self a t)
      fin_cases hm <;> rfl
    have ht := ih (fun p hp => h p (List.mem_cons_of_mem a hp))
    rw [join_data] at ht ⊢
    simp only [List.map_cons, List.flatten_cons, List.length_append, List.length_cons, ha, ht]
    omega

theorem join_chars_of_bases (l : List String) (h : ∀ p ∈ l, p ∈ bases) :
    ∀ c ∈ (String.join l).data, c ∈ ['A', 'T', 'G', 'C'] := by
  intro c hc
  rw [join_data] at hc
  rcases List.mem_flatten.mp hc with ⟨cs, hcs, hc2⟩
  rcases List.mem_map.mp hcs with ⟨p, hp, rfl⟩
  have hall : ∀ p ∈ bases, ∀ c ∈ p.data, c ∈ ['A', 'T', 'G', 'C'] := by decide
  exact hall p (h p hp) c hc2

/-- C2: every name line is `@` followed by exactly 12 ASCII lowercase
letters, i.e. it matches the pattern `@[a-z]\x7b12\x7d`. -/
theorem name_line_format (reads len : Int) (g : RandStream) (r : List String)
    (h : r ∈ records reads len g) :
    ∃ cs : List Char, (r.getD 0 "").data = '@' :: cs ∧ cs.length = 12 ∧
      ∀ c ∈ cs, isLowerAZ c = true := by
  rcases mem_records reads len g r h with ⟨g2, rfl⟩
  refine ⟨(randomNameChars 12 g2).1, ?_, randomNameChars_length 12 g2,
    randomNameChars_lower 12 g2⟩
  show ("@" ++ String.mk (randomNameChars 12 g2).1).data = '@' :: (randomNameChars 12 g2).1
  rw [String.data_append]
  rfl

theorem name_line_format_witness :
    (["@aaaaaaaaaaaa", "AA", "+", "EE"] ∈ records 1 2 (fun _ => 0)) ∧
    ∃ cs : List Char,
      ((["@aaaaaaaaaaaa", "AA", "+", "EE"] : List String).getD 0 "").data = '@' :: cs ∧
      cs.length = 12 ∧ ∀ c ∈ cs, isLowerAZ c = true :=
  ⟨by decide, name_line_format 1 2 (fun _ => 0) _ (by decide)⟩

/-- C3: for non-negative `len = L`, every sequence line has length exactly
`L` and all of its characters are in the alphabet \x7bA, T, G, C\x7d. -/
theorem sequence_line_format (reads : Int) (L : Nat) (g : RandStream) (r : List String)
    (h : r ∈ records reads L g) :
    (r.getD 1 "").length = L ∧ ∀ c ∈ (r.getD 1 "").data, c ∈ ['A', 'T', 'G', 'C'] := by
  rcases mem_records reads L g r h with ⟨g2, rfl⟩
  have hmem := randomSeqParts_mem ((L : Int)).toNat (randomReadName g2).2
  constructor
  · show (String.join (randomSeqParts ((L : Int)).toNat (randomReadName g2).2).1).data.length = L
    rw [join_length_of_bases _ hmem, randomSeqParts_length, Int.toNat_ofNat]
  · intro c hc
    exact join_chars_of_bases _ hmem c hc

theorem sequence_line_format_witness :
    (["@aaaaaaaaaaaa", "AA", "+", "EE"] ∈ records 1 2 (fun _ => 0)) ∧
    ((["@aaaaaaaaaaaa", "AA", "+", "EE"] : List String).getD 1 "").length = 2 ∧
    ∀ c ∈ ((["@aaaaaaaaaaaa", "AA", "+", "EE"] : List String).getD 1 "").data,
      c ∈ ['A', 'T', 'G', 'C'] :=
  ⟨by decide, sequence_line_format 1 2 (fun _ => 0) _ (by decide)⟩

/-! ### Quality line -/

theorem pyStrRepeat_E_data (n : Nat) :
    (String.join (List.replicate n "E")).data = List.replicate n 'E' := by
  induction n with
  | zero => rfl
  | succ k ih =>
    rw [List.replicate_succ, join_data, List.map_cons, List.flatten_cons]
    rw [join_data] at ih
    rw [ih, List.replicate_succ]
    rfl

/-- C4: for non-negative `len = L`, every quality line is exactly `L`
repetitions of `E`, and the quality line is identical across all records of
the same run. -/
theorem quality_line_constant (reads : Int) (L : Nat) (g : RandStream) :
    (∀ r ∈ records reads L g,
        r.getD 3 "" = pyStrRepeat "E" L ∧ (r.getD 3 "").data = List.replicate L 'E') ∧
    (∀ r1 ∈ records reads L g, ∀ r2 ∈ records reads L g,
        r1.getD 3 "" = r2.getD 3 "") := by
  constructor
  · intro r h
    rcases mem_records _ _ _ r h with ⟨g2, rfl⟩
    refine ⟨rfl, ?_⟩
    show (String.join (List.replicate ((L : Int)).toNat "E")).data = List.replicate L 'E'
    rw [Int.toNat_ofNat]
    exact pyStrRepeat_E_data L
  · intro r1 h1 r2 h2
    rcases mem_records _ _ _ r1 h1 with ⟨ga, rfl⟩
    rcases mem_records _ _ _ r2 h2 with ⟨gb, rfl⟩
    rfl

theorem quality_line_constant_witness :
    (["@aaaaaaaaaaaa", "AA", "+", "EE"] ∈ records 1 2 (fun _ => 0)) ∧
    (["@aaaaaaaaaaaa", "AA", "+", "EE"] : List String).getD 3 "" = pyStrRepeat "E" 2 ∧
    ((["@aaaaaaaaaaaa", "AA", "+", "EE"] : List String).getD 3 "").data =
      List.replicate 2 'E' :=
  ⟨by decide, (quality_line_constant 1 2 (fun _ => 0)).1 _ (by decide)⟩

/-! ### Record shape and line positions -/

theorem flatten_getD_plus (rs : List (List String))
    (h4 : ∀ r ∈ rs, r.getD 2 "" = "+" ∧ r.length = 4) :
    ∀ i, i < rs.length → rs.flatten.getD (4 * i + 2) "" = "+" := by
  induction rs with
  | nil => intro i hi; cases hi
  | cons a t ih =>
    intro i hi
    rcases h4 a (List.mem_cons_self a t) with ⟨ha2, ha4⟩
    cases i with
    | zero =>
      rw [List.flatten_cons, Nat.mul_zero, Nat.zero_add,
        getD_append_of_lt _ _ _ _ (by omega)]
      exact ha2
    | succ m =>
      rw [List.flatten_cons]
      have he : 4 * (m + 1) + 2 = a.length + (4 * m + 2) := by omega
      have hm : m < t.length := by
        simp only [List.length_cons] at hi
        omega
      rw [he, getD_append_add]
      exact ih (fun r hr => h4 r (List.mem_cons_of_mem a hr)) m hm

/-- C5: every iteration prints exactly four lines, in the fixed order name,
sequence, `+`, quality; in particular the line at offset 2 of every record —
position `4*i + 2` of the whole output — is exactly `+`. -/
theorem record_four_line_order (reads len : Int) (g : RandStream) :
    (∀ r ∈ records reads len g,
        ∃ nm sq, r = ["@" ++ nm, sq, "+", pyStrRepeat "E" len]) ∧
    (∀ i, i < (records reads len g).length →
        (runProgram reads len g).getD (4 * i + 2) "" = "+") := by
  have hshape : ∀ r ∈ records reads len g,
      ∃ nm sq, r = ["@" ++ nm, sq, "+", pyStrRepeat "E" len] := by
    intro r h
    rcases mem_records _ _ _ r h with ⟨g2, rfl⟩
    exact ⟨(randomReadName g2).1,
      String.join (randomSeqParts len.toNat (randomReadName g2).2).1, rfl⟩
  refine ⟨hshape, ?_⟩
  have h4 : ∀ r ∈ records reads len g, r.getD 2 "" = "+" ∧ r.length = 4 := by
    intro r h
    rcases hshape r h with ⟨nm, sq, rfl⟩
    exact ⟨rfl, rfl⟩
  exact flatten_getD_plus _ h4

theorem record_four_line_order_witness :
    (0 < (records 1 2 (fun _ => 0)).length) ∧
    (runProgram 1 2 (fun _ => 0)).getD 2 "" = "+" ∧
    ∃ nm sq, (["@aaaaaaaaaaaa", "AA", "+", "EE"] : List String) =
      ["@" ++ nm, sq, "+", pyStrRepeat "E" 2] :=
  ⟨by decide,
   by
     have h := (record_four_line_order 1 2 (fun _ => 0)).2 0 (by decide)
     simpa using h,
   (record_four_line_order 1 2 (fun _ => 0)).1 _ (by decide)⟩

/-! ### Argument handling -/

/-- C6: if `-reads` is absent, or `-reads`/`-len` does not parse as an
integer, the script stops at argument parsing with a non-zero exit status and
no standard output; and whenever parsing succeeds the generator runs and the
script exits 0 — parsing is the only failure mode. -/
theorem argument_error_semantics (readsArg lenArg : Option String) (g : RandStream) :
    ((readsArg = none ∨ (∃ s, readsArg = some s ∧ pyInt? s = none) ∨
        (∃ s, lenArg = some s ∧ pyInt? s = none)) →
      (runScript readsArg lenArg g).1 ≠ 0 ∧ (runScript readsArg lenArg g).2 = []) ∧
    (∀ r l, parseArgs readsArg lenArg = .ok (r, l) →
      runScript readsArg lenArg g = (0, runProgram r l g)) := by
  constructor
  · intro h
    have he : parseArgs readsArg lenArg = .error () := by
      rcases h with h | ⟨s, hs, hn⟩ | ⟨s, hs, hn⟩
      · rw [h]; rfl
      · subst hs; simp [parseArgs, hn]
      · subst hs
        cases readsArg with
        | none => rfl
        | some rs =>
          cases hrs : pyInt? rs with
          | none => simp [parseArgs, hrs]
          | some r => simp [parseArgs, hrs, hn]
    refine ⟨?_, ?_⟩ <;> simp [runScript, he]
  · intro r l hok
    simp [runScript, hok]

theorem argument_error_semantics_witness :
    ((none : Option String) = none ∨
      (∃ s, (none : Option String) = some s ∧ pyInt? s = none) ∨
      (∃ s, (some "75" : Option String) = some s ∧ pyInt? s = none)) ∧
    (runScript none (some "75") (fun _ => 0)).1 ≠ 0 ∧
    (runScript none (some "75") (fun _ => 0)).2 = [] ∧
    parseArgs (some "1") (some "2") = .ok (1, 2) ∧
    runScript (some "1") (some "2") (fun _ => 0) = (0, runProgram 1 2 (fun _ => 0)) :=
  ⟨Or.inl rfl,
   ((argument_error_semantics none (some "75") (fun _ => 0)).1 (Or.inl rfl)).1,
   ((argument_error_semantics none (some "75") (fun _ => 0)).1 (Or.inl rfl)).2,
   rfl,
   (argument_error_semantics (some "1") (some "2") (fun _ => 0)).2 1 2 rfl⟩

/-- C7: a negative `reads` yields zero loop iterations and no output, with no
error and no validation of its sign or magnitude. -/
theorem negative_reads_silent (reads len : Int) (g : RandStream)
    (h : reads < 0) :
    runProgram reads len g = [] ∧ records reads len g = [] := by
  have h0 : reads.toNat = 0 := Int.toNat_of_nonpos (le_of_lt h)
  constructor
  · simp [runProgram, records, h0, genRecords]
  · simp [records, h0, genRecords]

theorem negative_reads_silent_witness :
    (-3 : Int) < 0 ∧ runProgram (-3) 75 (fun _ => 0) = [] ∧
      records (-3) 75 (fun _ => 0) = [] :=
  ⟨by decide,
   (negative_reads_silent (-3) 75 (fun _ => 0) (by decide)).1,
   (negative_reads_silent (-3) 75 (fun _ => 0) (by decide)).2⟩

/-- C8: a zero or negative `len` raises no error: every emitted record still
has its four lines — a name line starting with `@`, then an empty sequence
line, the `+` line, and an empty quality line. -/
theorem nonpositive_len_empty_lines (reads len : Int) (g : RandStream)
    (hlen : len ≤ 0) (r : List String) (h : r ∈ records reads len g) :
    r.length = 4 ∧ r.getD 1 "" = "" ∧ r.getD 3 "" = "" ∧
      (r.getD 0 "").data.head? = some '@' ∧ r.getD 2 "" = "+" := by
  have h0 : len.toNat = 0 := Int.toNat_of_nonpos hlen
  rcases mem_records _ _ _ r h with ⟨g2, rfl⟩
  refine ⟨rfl, ?_, ?_, ?_, rfl⟩
  · show String.join (randomSeqParts len.toNat (randomReadName g2).2).1 = ""
    rw [h0]
    rfl
  · show pyStrRepeat "E" len = ""
    simp [pyStrRepeat, h0, String.join]
  · show ("@" ++ (randomReadName g2).1).data.head? = some '@'
    rw [String.data_append]
    rfl

theorem nonpositive_len_empty_lines_witness :
    (-1 : Int) ≤ 0 ∧
    (["@aaaaaaaaaaaa", "", "+", ""] ∈ records 1 (-1) (fun _ => 0)) ∧
    (["@aaaaaaaaaaaa", "", "+", ""] : List String).length = 4 ∧
    (["@aaaaaaaaaaaa", "", "+", ""] : List String).getD 1 "" = "" ∧
    (["@aaaaaaaaaaaa", "", "+", ""] : List String).getD 3 "" = "" :=
  ⟨by decide, by decide,
   (nonpositive_len_empty_lines 1 (-1) (fun _ => 0) (by decide) _ (by decide)).1,
   (nonpositive_len_empty_lines 1 (-1) (fun _ => 0) (by decide) _ (by decide)).2.1,
   (nonpositive_len_empty_lines 1 (-1) (fun _ => 0) (by decide) _ (by decide)).2.2.1⟩

/-! ### Precomputed quality string is an optimization only -/

theorem genRecordsNaive_eq (n : Nat) (len : Int) (g : RandStream) :
    genRecordsNaive n len g = genRecords n len (pyStrRepeat "E" len) g := by
  induction n generalizing g with
  | zero => rfl
  | succ k ih => simp [genRecordsNaive, genRecords, ih]

/-- C9: precomputing the quality string once before the loop produces output
equal to the naive variant that recomputes `len` repetitions of `E` in every
iteration — an optimization, not a behavioural change. -/
theorem qual_precompute_equiv (reads len : Int) (g : RandStream) :
    runProgramNaive reads len g = runProgram reads len g := by
  simp [runProgramNaive, runProgram, records, genRecordsNaive_eq]

/-! ### The output depends only on the draws actually consumed -/

theorem randomNameChars_snd (n : Nat) (g : RandStream) :
    (randomNameChars n g).2 = fun i => g (i + n) := by
  induction n generalizing g with
  | zero => funext i; rfl
  | succ k ih =>
    funext i
    show (randomNameChars k (fun j => g (j + 1))).2 i = g (i + (k + 1))
    rw [ih]
    exact congrArg g (by omega)

theorem randomSeqParts_snd (n : Nat) (g : RandStream) :
    (randomSeqParts n g).2 = fun i => g (i + n) := by
  induction n generalizing g with
  | zero => funext i; rfl
  | succ k ih =>
    funext i
    show (randomSeqParts k (fun j => g (j + 1))).2 i = g (i + (k + 1))
    rw [ih]
    exact congrArg g (by omega)

theorem genRecord_snd (len : Int) (qual : String) (g : RandStream) :
    (genRecord len qual g).2 = fun i => g (i + (12 + len.toNat)) := by
  funext i
  show (randomSeqParts len.toNat (randomReadName g).2).2 i = g (i + (12 + len.toNat))
  rw [randomSeqParts_snd]
  show (randomNameChars 12 g).2 (i + len.toNat) = g (i + (12 + len.toNat))
  rw [randomNameChars_snd]
  exact congrArg g (by omega)

theorem randomNameChars_fst_agree (n : Nat) (g1 g2 : RandStream)
    (h : ∀ i, i < n → g1 i = g2 i) :
    (randomNameChars n g1).1 = (randomNameChars n g2).1 := by
  induction n generalizing g1 g2 with
  | zero => rfl
  | succ k ih =>
    have h0 : g1 0 = g2 0 := h 0 (Nat.succ_pos k)
    have ht : ∀ i, i < k → (fun j => g1 (j + 1)) i = (fun j => g2 (j + 1)) i :=
      fun i hi => h (i + 1) (by omega)
    have hh : (randint 0 25 g1).1 = (randint 0 25 g2).1 := by
      show 0 + g1 0 % (25 - 0 + 1) = 0 + g2 0 % (25 - 0 + 1)
      rw [h0]
    show ascii_lowercase.getD (randint 0 25 g1).1 'a' ::
        (randomNameChars k (fun j => g1 (j + 1))).1
      = ascii_lowercase.getD (randint 0 25 g2).1 'a' ::
        (randomNameChars k (fun j => g2 (j + 1))).1
    rw [hh, ih _ _ ht]

theorem randomSeqParts_fst_agree (n : Nat) (g1 g2 : RandStream)
    (h : ∀ i, i < n → g1 i = g2 i) :
    (randomSeqParts n g1).1 = (randomSeqParts n g2).1 := by
  induction n generalizing g1 g2 with
  | zero => rfl
  | succ k ih =>
    have h0 : g1 0 = g2 0 := h 0 (Nat.succ_pos k)
    have ht : ∀ i, i < k → (fun j => g1 (j + 1)) i = (fun j => g2 (j + 1)) i :=
      fun i hi => h (i + 1) (by omega)
    have hh : (randrange 4 g1).1 = (randrange 4 g2).1 := by
      show g1 0 % 4 = g2 0 % 4
      rw [h0]
    show bases.getD (randrange 4 g1).1 "" :: (randomSeqParts k (fun j => g1 (j + 1))).1
      = bases.getD (randrange 4 g2).1 "" :: (randomSeqParts k (fun j => g2 (j + 1))).1
    rw [hh, ih _ _ ht]

theorem genRecord_fst_agree (len : Int) (qual : String) (g1 g2 : RandStream)
    (h : ∀ i, i < 12 + len.toNat → g1 i = g2 i) :
    (genRecord len qual g1).1 = (genRecord len qual g2).1 := by
  have hname : (randomNameChars 12 g1).1 = (randomNameChars 12 g2).1 :=
    randomNameChars_fst_agree 12 g1 g2 (fun i hi => h i (by omega))
  have hseq : (randomSeqParts len.toNat (randomReadName g1).2).1
      = (randomSeqParts len.toNat (randomReadName g2).2).1 := by
    have e1 : (randomReadName g1).2 = fun i => g1 (i + 12) := randomNameChars_snd 12 g1
    have e2 : (randomReadName g2).2 = fun i => g2 (i + 12) := randomNameChars_snd 12 g2
    rw [e1, e2]
    exact randomSeqParts_fst_agree _ _ _ (fun i hi => h (i + 12) (by omega))
  show ["@" ++ String.mk (randomNameChars 12 g1).1,
      String.join (randomSeqParts len.toNat (randomReadName g1).2).1, "+", qual]
    = ["@" ++ String.mk (randomNameChars 12 g2).1,
      String.join (randomSeqParts len.toNat (randomReadName g2).2).1, "+", qual]
  rw [hname, hseq]

theorem genRecords_fst_agree (n : Nat) (len : Int) (qual : String) (g1 g2 : RandStream)
    (h : ∀ i, i < n * (12 + len.toNat) → g1 i = g2 i) :
    (genRecords n len qual g1).1 = (genRecords n len qual g2).1 := by
  induction n generalizing g1 g2 with
  | zero => rfl
  | succ k ih =>
    have hc : ∀ i, i < 12 + len.toNat → g1 i = g2 i := by
      intro i hi
      refine h i ?_
      have h1 : 12 + len.toNat ≤ (k + 1) * (12 + len.toNat) :=
        Nat.le_mul_of_pos_left _ (Nat.succ_pos k)
      omega
    have ht : ∀ i, i < k * (12 + len.toNat) →
        (genRecord len qual g1).2 i = (genRecord len qual g2).2 i := by
      intro i hi
      rw [genRecord_snd, genRecord_snd]
      show g1 (i + (12 + len.toNat)) = g2 (i + (12 + len.toNat))
      refine h (i + (12 + len.toNat)) ?_
      have h2 : k * (12 + len.toNat) + (12 + len.toNat) = (k + 1) * (12 + len.toNat) := by
        ring
      omega
    show (genRecord len qual g1).1 :: (genRecords k len qual (genRecord len qual g1).2).1
      = (genRecord len qual g2).1 :: (genRecords k len qual (genRecord len qual g2).2).1
    rw [genRecord_fst_agree len qual g1 g2 hc, ih _ _ ht]

/-- C10: the output is a deterministic function of `reads`, `len` and the
stream of pseudorandom draws: two runs that read the same values from the
random source produce character-for-character identical output. -/
theorem output_determined_by_draws (reads len : Int) (g1 g2 : RandStream)
    (h : ∀ i, i < drawCount reads len → g1 i = g2 i) :
    runProgram reads len g1 = runProgram reads len g2 := by
  have he := genRecords_fst_agree reads.toNat len (pyStrRepeat "E" len) g1 g2 h
  simp [runProgram, records, he]

theorem output_determined_by_draws_witness :
    (∀ i, i < drawCount 1 0 →
      (fun _ => 0 : RandStream) i = (fun j => if j < 12 then 0 else 7 : RandStream) i) ∧
    runProgram 1 0 (fun _ => 0) = runProgram 1 0 (fun j => if j < 12 then 0 else 7) :=
  ⟨by decide, output_determined_by_draws 1 0 _ _ (by decide)⟩
